import Mathlib

/-!
Shallow embedding of the face-gallery identity-resolution core
(`src/routes/images.py`, `src/routes/cluster.py`, `src/routes/persons.py`).

The persistent store (MongoDB) is modelled as lists of documents kept in
insertion order: `find` is `List.filter`, `insert_one` appends a document with
a fresh id drawn from a global counter, `update_one` rewrites the first
matching document, `update_many` rewrites every matching document,
`delete_one` drops the first matching document and `delete_many` drops all of
them.  Document ids play the role of Mongo ObjectIds (which are never falsy
in Python, so a present `person_id` is always truthy).

Face embeddings are fixed-length numeric vectors; they are embedded as
`List ℚ`.  `face_recognition.compare_faces(known, cand, tolerance)` computes
the Euclidean distances of `cand` to every entry of `known` and returns the
Boolean list `distance <= tolerance`.  Over the rationals we use the
square-root-free equivalent: `‖a - b‖ ≤ t ↔ (0 ≤ t ∧ ‖a - b‖² ≤ t²)`,
which is exact because a Euclidean norm is nonnegative.
-/

namespace FaceGallery

/-- The `embedding` field of a stored face document: it can be missing
altogether (`face["embedding"]` raises `KeyError`), be `None`, or hold a
numeric vector.  `face.get("embedding")` is truthy exactly for a non-empty
vector. -/
inductive EmbField
  | absent
  | null
  | val (e : List ℚ)
deriving DecidableEq, Repr

/-- A document of the `faces` collection (fields the core logic reads or
writes; opaque payload fields such as the cropped-face base64 blob, the
bounding box and timestamps are not consulted by any of the routines
modelled here). -/
structure Face where
  id : Nat
  embedding : EmbField
  person_id : Option Nat
  image_id : Nat
  is_manual_assignment : Option Bool
deriving DecidableEq, Repr

/-- A document of the `persons` collection. -/
structure Person where
  id : Nat
  name : String
  faces : List Nat
  images : List Nat
  updated_at : Option String
deriving DecidableEq, Repr

/-- A document of the `images` collection. -/
structure Image where
  id : Nat
  filename : String
  faces : List Nat
  persons : List Nat
deriving DecidableEq, Repr

/-- The persistent store: the three collections plus the id generator. -/
structure DB where
  faces : List Face
  persons : List Person
  images : List Image
  nextId : Nat
deriving DecidableEq, Repr

/-! ### Mongo-style list primitives -/

/-- `update_one`: rewrite the first document matching `p` with `g`. -/
def updateFirst (p : α → Bool) (g : α → α) : List α → List α
  | [] => []
  | x :: xs => if p x then g x :: xs else x :: updateFirst p g xs

/-- `delete_one`: drop the first document matching `p`. -/
def deleteFirst (p : α → Bool) : List α → List α
  | [] => []
  | x :: xs => if p x then xs else x :: deleteFirst p xs

/-- `$addToSet`: append `x` unless already present (and Python `set.add`
for sets kept in insertion order). -/
def addToSet [DecidableEq α] (x : α) (l : List α) : List α :=
  if x ∈ l then l else l ++ [x]

/-- Collect the distinct elements of `l` in order of first appearance
(used to model iterating a Python `set` built by successive `add`s). -/
def dedupKeepFirst [DecidableEq α] (l : List α) : List α :=
  l.foldl (fun acc x => addToSet x acc) []

/-- Python `list.index(x)` (callers guard with `any`, so the
out-of-range value returned on a missing element is never used). -/
def listIndex [BEq α] (x : α) : List α → Nat
  | [] => 0
  | y :: ys => if y == x then 0 else listIndex x ys + 1

/-! ### The Identity Matcher -/

/-- Truthiness of `face.get("embedding")`. -/
def truthyEmb : EmbField → Option (List ℚ)
  | .absent => none
  | .null => none
  | .val e => if e = [] then none else some e

/-- `face.get("embedding")` is truthy. -/
def hasEmb (f : Face) : Bool := (truthyEmb f.embedding).isSome

/-- `np.array(face["embedding"])`: a missing key raises `KeyError`;
`None` yields a degenerate object array (modelled as `none`), which blows
up later when arithmetic is attempted on it. -/
def npGet : EmbField → Except String (Option (List ℚ))
  | .absent => .error "KeyError: embedding"
  | .null => .ok none
  | .val e => .ok (some e)

/-- A value produced by `np.array` on an embedding field: either a genuine
vector or the degenerate array obtained from `None`. -/
abbrev NpVec := Option (List ℚ)

/-- Squared Euclidean distance of two equal-length vectors. -/
def sqDist (a b : List ℚ) : ℚ :=
  (List.zipWith (fun x y => (x - y) * (x - y)) a b).sum

/-- The Boolean `np.linalg.norm(a - b) <= tol` computed square-root-free:
since a norm is nonnegative, `‖a-b‖ ≤ t ↔ (0 ≤ t ∧ ‖a-b‖² ≤ t·t)`. -/
def withinTol (tol : ℚ) (a b : List ℚ) : Bool :=
  decide (0 ≤ tol) && decide (sqDist a b ≤ tol * tol)

/-- `face_recognition.compare_faces(known, cand, tolerance)`.
With an empty `known` list `face_distance` returns an empty array, so the
result is `[]`.  Otherwise numpy arithmetic fails on a degenerate array
(`np.array(None)`) or on vectors of mismatched length. -/
def compare_faces (known : List NpVec) (cand : NpVec) (tol : ℚ) :
    Except String (List Bool) :=
  if known = [] then .ok []
  else
    match cand with
    | none => .error "TypeError: unsupported operand"
    | some c =>
      known.mapM (fun k =>
        match k with
        | none => .error "TypeError: unsupported operand"
        | some e =>
          if e.length = c.length then .ok (withinTol tol e c)
          else .error "ValueError: operands could not be broadcast")

/-- The matching step shared by upload and re-clustering
(`images.py:190-201`, `cluster.py:168-195`): run `compare_faces`, and on
`any(matches)` take the person id at `matches.index(True)`. -/
def matchKnown (knownEncodings : List NpVec) (knownPersonIds : List Nat)
    (cand : NpVec) (tol : ℚ) : Except String (Option Nat) :=
  if knownEncodings = [] then .ok none
  else
    match compare_faces knownEncodings cand tol with
    | .error e => .error e
    | .ok ms =>
      if ms.any (fun b => b) then
        match knownPersonIds[listIndex true ms]? with
        | some pid => .ok (some pid)
        | none => .error "IndexError: list index out of range"
      else .ok none

/-! ### The Assignment Engine (`process_single_image`, `images.py:75-285`)

The file/HTTP boundary (reading the upload, resizing, base64 encoding and
running `face_recognition.face_encodings`) is the external Embedding Source;
the embedded function starts at the point where the detected encodings are
in hand and the image document is inserted (`images.py:151`). -/

/-- The candidate pool built at `images.py:174-182`: every stored face with
a truthy `embedding` and a truthy `person_id` contributes its
`(embedding, person_id)` pair, in store order. -/
def initialPool (db : DB) : List (List ℚ × Nat) :=
  db.faces.filterMap (fun f =>
    match truthyEmb f.embedding, f.person_id with
    | some e, some pid => some (e, pid)
    | _, _ => none)

/-- One recorded iteration of the upload loop: the pool handed to the
Identity Matcher, the detected encoding, and the resulting assignment. -/
structure IngStep where
  pool : List (List ℚ × Nat)
  encoding : List ℚ
  person_id : Nat
  face_id : Nat
deriving DecidableEq, Repr

/-- Accumulated state of the upload loop (`images.py:170-252`). -/
structure IngState where
  db : DB
  pool : List (List ℚ × Nat)
  face_ids : List Nat
  assigned_persons : List Nat
  assignments : List (Nat × Nat)
  steps : List IngStep
deriving DecidableEq, Repr

/-- One iteration of the upload loop (`images.py:186-252`): match the
detected encoding against the pool, create a fresh `"Person {count+1}"`
on a miss (`count` is the current size of the persons collection), insert
the face document, `$addToSet` the face and image into the person, and
append the new `(encoding, person_id)` pair to the pool. -/
def ingestFace (tol : ℚ) (now : String) (image_id : Nat)
    (st : IngState) (encoding : List ℚ) : Except String IngState :=
  match matchKnown (st.pool.map (fun pr => some pr.1))
      (st.pool.map (fun pr => pr.2)) (some encoding) tol with
  | .error e => .error e
  | .ok mOpt =>
  let (db1, person_id) :=
    match mOpt with
    | some pid => (st.db, pid)
    | none =>
      let person_count := st.db.persons.length + 1
      let pid := st.db.nextId
      ({ st.db with
          persons := st.db.persons ++
            [(⟨pid, "Person " ++ toString person_count, [], [], none⟩ : Person)],
          nextId := pid + 1 }, pid)
  let fid := db1.nextId
  let face : Face := ⟨fid, .val encoding, some person_id, image_id, none⟩
  let db2 := { db1 with faces := db1.faces ++ [face], nextId := fid + 1 }
  let db3 := { db2 with
      persons := updateFirst (fun p => p.id == person_id)
        (fun p => { p with
            faces := addToSet fid p.faces,
            images := addToSet image_id p.images,
            updated_at := some now }) db2.persons }
  .ok { db := db3
      , pool := st.pool ++ [(encoding, person_id)]
      , face_ids := st.face_ids ++ [fid]
      , assigned_persons := addToSet person_id st.assigned_persons
      , assignments := st.assignments ++ [(fid, person_id)]
      , steps := st.steps ++ [⟨st.pool, encoding, person_id, fid⟩] }

/-- The upload loop over the detected encodings, in detection order.  An
exception aborts the loop; the mutations already applied persist. -/
def ingestLoop (tol : ℚ) (now : String) (image_id : Nat) :
    List (List ℚ) → IngState → IngState × Option String
  | [], st => (st, none)
  | e :: rest, st =>
    match ingestFace tol now image_id st e with
    | .ok st2 => ingestLoop tol now image_id rest st2
    | .error msg => (st, some msg)

/-- Insert the image document and run the upload loop. -/
def ingestRun (db : DB) (filename : String) (detected : List (List ℚ))
    (tol : ℚ) (now : String) : Nat × IngState × Option String :=
  let image_id := db.nextId
  let db0 := { db with
      images := db.images ++ [⟨image_id, filename, [], []⟩],
      nextId := image_id + 1 }
  (image_id, ingestLoop tol now image_id detected (⟨db0, initialPool db0, [], [], [], []⟩ : IngState))

/-- Success payload of `process_single_image`: the zero-face branch
(`images.py:277-285`) reports `faces_detected = 0`, `persons_assigned = 0`
and carries no assignment list. -/
inductive IngestOut
  | withFaces (faces_detected persons_assigned image_id : Nat)
      (assignments : List (Nat × Nat))
  | noFaces (image_id : Nat)
deriving DecidableEq, Repr

/-- `process_single_image` from the image-document insert on
(`images.py:151-285`). -/
def process_single_image (db : DB) (filename : String)
    (detected : List (List ℚ)) (tol : ℚ) (now : String) :
    DB × Except String IngestOut :=
  match ingestRun db filename detected tol now with
  | (image_id, st, none) =>
    let dbF := { st.db with
        images := updateFirst (fun img => img.id == image_id)
          (fun img => { img with faces := st.face_ids, persons := st.assigned_persons })
          st.db.images }
    if 0 < detected.length then
      (dbF, .ok (.withFaces detected.length st.assigned_persons.length image_id st.assignments))
    else
      (dbF, .ok (.noFaces image_id))
  | (_, st, some msg) => (st.db, .error msg)

/-! ### The Re-clustering Engine (`cluster_faces`, `cluster.py:66-289`) -/

/-- The `$or` selection of `cluster.py:87-93` (and the identical clearing
filter at `cluster.py:147-152`): the field is missing, explicitly `False`,
or not `True` — the union is simply `is_manual_assignment ≠ True`. -/
def autoFace (f : Face) : Bool := !(f.is_manual_assignment == some true)

/-- `manually_assigned_count` (`cluster.py:95`). -/
def manualCount (db : DB) : Nat :=
  (db.faces.filter (fun f => f.is_manual_assignment == some true)).length

/-- Representative encodings of existing persons (`cluster.py:128-142`):
for every person, in store order, take the faces currently assigned to it;
if there is at least one, `np.array` its first face's embedding.  A first
face whose `embedding` key is missing raises `KeyError`. -/
def buildRepsAux (faces : List Face) : List Person → Except String (List (NpVec × Nat))
  | [] => .ok []
  | p :: ps =>
    match faces.filter (fun f => f.person_id == some p.id) with
    | [] => buildRepsAux faces ps
    | pf :: _ =>
      match npGet pf.embedding with
      | .error e => .error e
      | .ok rep =>
        match buildRepsAux faces ps with
        | .error e => .error e
        | .ok rest => .ok ((rep, p.id) :: rest)

/-- `existing_person_encodings` as the ordered list of
`(representative encoding, person_id)` pairs. -/
def buildReps (db : DB) : Except String (List (NpVec × Nat)) :=
  buildRepsAux db.faces db.persons

/-- Number of persons owning a representative encoding (zero when the
construction would raise). -/
def repsCount (db : DB) : Nat :=
  match buildReps db with
  | .ok l => l.length
  | .error _ => 0

/-- The `update_many` `$unset` of `cluster.py:146-153`: clear `person_id`
on every non-manually-assigned face. -/
def clearAuto (db : DB) : DB :=
  { db with faces := db.faces.map (fun f =>
      if autoFace f then { f with person_id := none } else f) }

/-- State of the re-clustering loop (`cluster.py:155-218`). -/
structure ClusterState where
  db : DB
  processed : List Face
  new_person_count : Nat
deriving DecidableEq, Repr

/-- One iteration of the re-clustering loop (`cluster.py:159-218`):
read the face's embedding (unguarded `face["embedding"]`), try the
representative encodings of pre-existing persons, then the faces already
reprocessed in this pass, else create `"Person {new_person_count+1}"`;
finally `$set` the face's `person_id` and append the face to
`processed_faces`. -/
def reclusterFace (tol : ℚ) (reps : List (NpVec × Nat))
    (st : ClusterState) (face : Face) : Except String ClusterState :=
  match npGet face.embedding with
  | .error e => .error e
  | .ok encoding =>
    match (if reps = [] then .ok none
           else matchKnown (reps.map (fun r => r.1)) (reps.map (fun r => r.2))
             encoding tol : Except String (Option Nat)) with
    | .error e => .error e
    | .ok m1 =>
      match (match m1 with
             | some pid => .ok (some pid)
             | none =>
               if st.processed = [] then .ok none
               else
                 match st.processed.mapM (fun f => npGet f.embedding) with
                 | .error e => .error e
                 | .ok pencs =>
                   matchKnown pencs (st.processed.map (fun f => f.person_id.getD 0))
                     encoding tol : Except String (Option Nat)) with
      | .error e => .error e
      | .ok m2 =>
        let (st1, person_id) :=
          match m2 with
          | some pid => (st, pid)
          | none =>
            let cnt := st.new_person_count + 1
            let pid := st.db.nextId
            ({ st with
                db := { st.db with
                  persons := st.db.persons ++
                    [(⟨pid, "Person " ++ toString cnt, [], [], none⟩ : Person)],
                  nextId := pid + 1 },
                new_person_count := cnt }, pid)
        .ok { st1 with
              db := { st1.db with
                faces := updateFirst (fun g => g.id == face.id)
                  (fun g => { g with person_id := some person_id }) st1.db.faces },
              processed := st1.processed ++
                [{ face with person_id := some person_id }] }

/-- The re-clustering loop over the snapshot of selected faces.  An
exception aborts it; mutations already applied persist. -/
def reclusterLoop (tol : ℚ) (reps : List (NpVec × Nat)) :
    List Face → ClusterState → ClusterState × Option String
  | [], st => (st, none)
  | f :: fs, st =>
    match reclusterFace tol reps st f with
    | .ok st2 => reclusterLoop tol reps fs st2
    | .error msg => (st, some msg)

/-- The rebuild pass over person documents (`cluster.py:220-247`): for
every person id appearing on some face, `$set` that person's `faces`,
`images` and `updated_at` from the current Face→Person mapping.  Persons
to which no face points are not touched (and never deleted). -/
def rebuildPersons (now : String) (db : DB) : DB :=
  (dedupKeepFirst (db.faces.filterMap (fun f => f.person_id))).foldl (fun d pid =>
    let person_faces := d.faces.filter (fun f => f.person_id == some pid)
    let face_ids := person_faces.map (fun f => f.id)
    let image_ids := dedupKeepFirst (person_faces.map (fun f => f.image_id))
    let upd := fun (p : Person) =>
      { p with faces := face_ids, images := image_ids, updated_at := some now }
    { d with persons := updateFirst (fun p => p.id == pid) upd d.persons }) db

/-- The rebuild pass over image documents (`cluster.py:249-267`). -/
def rebuildImages (db : DB) : DB :=
  { db with images := db.images.map (fun img =>
      let person_ids := dedupKeepFirst
        ((db.faces.filter (fun f => f.image_id == img.id)).filterMap (fun f => f.person_id))
      { img with persons := person_ids }) }

/-- The summary payload of a completed re-clustering run
(`cluster.py:272-285`). -/
structure ClusterSummary where
  total_faces : Nat
  total_faces_assigned : Nat
  total_persons : Nat
  manually_assigned_faces_preserved : Nat
  existing_persons_preserved : Nat
  new_persons_created : Nat
deriving DecidableEq, Repr

/-- Outcome of the `/cluster/` route: the two early successes
(`cluster.py:97-102`, `cluster.py:115-119`), the completed run, or the
500 produced by the `except` handler. -/
inductive ClusterResult
  | noFaces (manually_assigned_faces : Nat)
  | tooFew
  | done (s : ClusterSummary)
  | err (msg : String)
deriving DecidableEq, Repr

/-- `cluster_faces` (`cluster.py:66-289`).  The returned `DB` is the store
after the call — on an exception the mutations already applied persist,
Flask merely answers 500. -/
def cluster_faces (tol : ℚ) (now : String) (db : DB) : DB × ClusterResult :=
  let faces := db.faces.filter autoFace
  if faces.isEmpty then (db, .noFaces (manualCount db))
  else
    let withEmbedding := faces.filter hasEmb
    if withEmbedding.length < 2 then (db, .tooFew)
    else
      match buildReps db with
      | .error msg => (db, .err msg)
      | .ok reps =>
        let db1 := clearAuto db
        match reclusterLoop tol reps faces ⟨db1, [], reps.length⟩ with
        | (st, some msg) => (st.db, .err msg)
        | (st, none) =>
          let db2 := rebuildImages (rebuildPersons now st.db)
          (db2, .done
            { total_faces := faces.length
            , total_faces_assigned :=
                (db2.faces.filter (fun f => f.person_id.isSome)).length
            , total_persons := db2.persons.length
            , manually_assigned_faces_preserved := manualCount db
            , existing_persons_preserved := reps.length
            , new_persons_created := st.new_person_count - reps.length })

/-! ### The Integrity Maintainer: `delete_image` (`images.py:708-775`) -/

/-- Response of the `DELETE /images/<id>` route. -/
inductive DeleteImageResult
  | notFound
  | ok (deleted_faces_count : Nat) (deleted_persons : List String)
deriving DecidableEq, Repr

/-- `delete_image`: for each face of the image, count the faces its person
currently has (no face has been deleted yet at that point); delete the
person only when that count is exactly 1, otherwise `$pull` the face and
image references.  Then bulk-delete the image's faces and the image. -/
def delete_image (db : DB) (image_id : Nat) (now : String) :
    DB × DeleteImageResult :=
  match db.images.find? (fun img => img.id == image_id) with
  | none => (db, .notFound)
  | some _ =>
    let faces := db.faces.filter (fun f => f.image_id == image_id)
    let step := fun (acc : DB × List String) (face : Face) =>
      let (d, names) := acc
      match face.person_id with
      | none => (d, names)
      | some pid =>
        let person_faces_count :=
          (d.faces.filter (fun f => f.person_id == some pid)).length
        if person_faces_count = 1 then
          match d.persons.find? (fun p => p.id == pid) with
          | some person =>
            ({ d with persons := deleteFirst (fun p => p.id == pid) d.persons },
             names ++ [person.name])
          | none => (d, names)
        else
          let pull := fun (p : Person) =>
            { p with
                faces := p.faces.filter (fun x => !(x == face.id)),
                images := p.images.filter (fun x => !(x == image_id)),
                updated_at := some now }
          ({ d with persons := updateFirst (fun p => p.id == pid) pull d.persons },
           names)
    let (db1, deleted_persons) := faces.foldl step (db, [])
    let deleted_faces_count :=
      (db1.faces.filter (fun f => f.image_id == image_id)).length
    let db2 := { db1 with
        faces := db1.faces.filter (fun f => !(f.image_id == image_id)) }
    let db3 := { db2 with
        images := deleteFirst (fun img => img.id == image_id) db2.images }
    (db3, .ok deleted_faces_count deleted_persons)

/-! ### `rename_person` (`persons.py:133-180`) -/

/-- Python `str.strip()` on the character list: drop leading and trailing
whitespace. -/
def stripChars (l : List Char) : List Char :=
  (((l.dropWhile Char.isWhitespace).reverse).dropWhile Char.isWhitespace).reverse

/-- Python `str.strip()`. -/
def pyStrip (s : String) : String := ⟨stripChars s.data⟩

/-- Response of the `PUT /persons/<id>/rename` route. -/
inductive RenameResult
  | invalidName
  | notFound
  | renamed (old_name new_name : String)
  | updateFailed
deriving DecidableEq, Repr

/-- `rename_person`: strip the requested name, reject an empty result,
look the person up, `$set` `name` and a fresh `updated_at`, and report
success exactly when the store modified the document (`modified_count > 0`
holds iff the `$set` changed at least one field). -/
def rename_person (db : DB) (person_id : Nat) (rawName : String)
    (now : String) : DB × RenameResult :=
  let new_name := pyStrip rawName
  if new_name = "" then (db, .invalidName)
  else
    match db.persons.find? (fun p => p.id == person_id) with
    | none => (db, .notFound)
    | some person =>
      let setName := fun (p : Person) =>
        { p with name := new_name, updated_at := some now }
      let db1 := { db with
          persons := updateFirst (fun p => p.id == person_id) setName db.persons }
      if person.name != new_name || person.updated_at != some now then
        (db1, .renamed person.name new_name)
      else
        (db1, .updateFailed)

/-! ### Verification helpers and concrete stores -/

/-- The face fields no routine of this core ever rewrites: id, embedding,
owning image, manual flag.  Only `person_id` (and, for persons, the
reference sets) is mutable here. -/
def faceSkel (f : Face) : Nat × EmbField × Nat × Option Bool :=
  (f.id, f.embedding, f.image_id, f.is_manual_assignment)

/-- Identity and display name of a person. -/
def personPN (p : Person) : Nat × String := (p.id, p.name)

/-- Position-wise preservation of manually-assigned faces: whatever sits at
position `i` of the evolved faces collection still carries the `person_id`
the manually-assigned face at position `i` of the original collection had. -/
def ManualOK (orig cur : List Face) : Prop :=
  ∀ (i : Nat) (f fc : Face), orig[i]? = some f → cur[i]? = some fc →
    f.is_manual_assignment = some true → fc.person_id = f.person_id

/-- An image with two faces, both of the same person, who owns no other
face: the configuration in which `delete_image`'s count-based check
misfires. -/
def dbTwoFaces : DB :=
  { faces := [⟨1, .val [0], some 5, 10, none⟩, ⟨2, .val [1], some 5, 10, none⟩]
  , persons := [⟨5, "Person 1", [1, 2], [10], none⟩]
  , images := [⟨10, "a.jpg", [1, 2], [5]⟩]
  , nextId := 11 }

/-- Two persons with identical representative embeddings: on re-clustering
both faces match the first person and the second ends with zero faces. -/
def dbTwinPersons : DB :=
  { faces := [⟨1, .val [0], some 1, 10, none⟩, ⟨2, .val [0], some 2, 10, none⟩]
  , persons := [⟨1, "Alice", [1], [10], none⟩, ⟨2, "Bob", [2], [10], none⟩]
  , images := [⟨10, "a.jpg", [1, 2], [1, 2]⟩]
  , nextId := 11 }

/-- One stale person with zero assigned faces plus two unassigned,
mutually distant faces. -/
def dbStalePerson : DB :=
  { faces := [⟨1, .val [0], none, 10, none⟩, ⟨2, .val [100], none, 10, none⟩]
  , persons := [⟨5, "Person 1", [], [], none⟩]
  , images := [⟨10, "a.jpg", [1, 2], []⟩]
  , nextId := 11 }

/-- A face whose `embedding` key is missing, next to two faces with
embeddings. -/
def dbNoEmbedding : DB :=
  { faces := [⟨1, .absent, none, 10, none⟩, ⟨2, .val [0], none, 10, none⟩,
              ⟨3, .val [100], none, 10, none⟩]
  , persons := []
  , images := [⟨10, "a.jpg", [1, 2, 3], []⟩]
  , nextId := 11 }

/-- A single person with a recorded `updated_at`. -/
def dbAlice : DB :=
  { faces := []
  , persons := [⟨7, "Alice", [1], [], some "t0"⟩]
  , images := []
  , nextId := 8 }

/-- A manually assigned face alongside an automatic one. -/
def dbManual : DB :=
  { faces := [⟨1, .val [0], some 1, 10, some true⟩,
              ⟨2, .val [0], some 1, 10, none⟩,
              ⟨3, .val [100], some 2, 10, none⟩]
  , persons := [⟨1, "Alice", [1, 2], [10], none⟩, ⟨2, "Bob", [3], [10], none⟩]
  , images := [⟨10, "a.jpg", [1, 2, 3], [1, 2]⟩]
  , nextId := 11 }

/-- One embedded face and one with a `None` embedding: below the 2-face
clustering threshold. -/
def dbOneEmbedding : DB :=
  { faces := [⟨1, .val [0], none, 10, none⟩, ⟨2, .null, none, 10, none⟩]
  , persons := []
  , images := []
  , nextId := 11 }

/-- One stored face already assigned to a person: seeds a non-empty
candidate pool for an upload. -/
def dbPoolW : DB :=
  { faces := [⟨1, .val [0], some 5, 10, none⟩]
  , persons := [⟨5, "Person 1", [1], [10], none⟩]
  , images := [⟨10, "a.jpg", [1], [5]⟩]
  , nextId := 11 }

/-- Concrete pool for the C3 witness: the first entry is far from the
candidate, the second within tolerance. -/
def poolW : List (List ℚ × Nat) := [([10], 1), ([0], 2)]

/-- `poolW` reordered. -/
def poolW2 : List (List ℚ × Nat) := [([0], 2), ([10], 1)]

/-! ## Lemmas about the store primitives -/

theorem updateFirst_length (p : α → Bool) (g : α → α) (l : List α) :
    (updateFirst p g l).length = l.length := by
  induction l with
  | nil => rfl
  | cons x xs ih =>
    simp only [updateFirst]
    split <;> simp [ih]

theorem map_updateFirst (φ : α → β) (p : α → Bool) (g : α → α)
    (h : ∀ a, φ (g a) = φ a) (l : List α) :
    (updateFirst p g l).map φ = l.map φ := by
  induction l with
  | nil => rfl
  | cons x xs ih =>
    simp only [updateFirst]
    split <;> simp [ih, h]

theorem getElem?_updateFirst (p : α → Bool) (g : α → α) (l : List α)
    (i : Nat) (a : α) (h : l[i]? = some a) :
    (updateFirst p g l)[i]? = some a ∨
      ((updateFirst p g l)[i]? = some (g a) ∧ p a = true) := by
  induction l generalizing i with
  | nil => simp at h
  | cons x xs ih =>
    simp only [updateFirst]
    by_cases hp : p x
    · simp only [hp, if_true]
      cases i with
      | zero =>
        simp at h
        subst h
        right
        simp [hp]
      | succ j =>
        simp at h ⊢
        left
        exact h
    · simp only [hp, if_false]
      cases i with
      | zero =>
        simp at h
        subst h
        left
        simp
      | succ j =>
        simp at h ⊢
        exact ih j h

theorem mem_updateFirst_self (p : α → Bool) (g : α → α) (l : List α)
    (a : α) (h : a ∈ l) (hg : g a = a) : a ∈ updateFirst p g l := by
  induction l with
  | nil => simp at h
  | cons x xs ih =>
    simp only [updateFirst]
    rcases List.mem_cons.mp h with rfl | hmem
    · split
      · rw [hg]; exact List.mem_cons_self _ _
      · exact List.mem_cons_self _ _
    · split
      · exact List.mem_cons_of_mem _ hmem
      · exact List.mem_cons_of_mem _ (ih hmem)

/-! ## Lemmas about the Identity Matcher -/

theorem compare_faces_eq_mapM (known : List NpVec) (c : List ℚ) (tol : ℚ) :
    compare_faces known (some c) tol = known.mapM (fun k =>
      match k with
      | none => .error "TypeError: unsupported operand"
      | some e =>
        if e.length = c.length then .ok (withinTol tol e c)
        else .error "ValueError: operands could not be broadcast") := by
  cases known with
  | nil => rfl
  | cons x xs => simp [compare_faces]

theorem compare_faces_pool (tol : ℚ) (c : List ℚ) (pool : List (List ℚ × Nat))
    (h : ∀ pr ∈ pool, pr.1.length = c.length) :
    compare_faces (pool.map (fun pr => some pr.1)) (some c) tol =
      .ok (pool.map (fun pr => withinTol tol pr.1 c)) := by
  rw [compare_faces_eq_mapM]
  induction pool with
  | nil => rfl
  | cons x xs ih =>
    have hx : x.1.length = c.length := h x (List.mem_cons_self _ _)
    have hxs := ih (fun pr hpr => h pr (List.mem_cons_of_mem _ hpr))
    simp only [List.map_cons, List.mapM_cons, hxs, hx, if_pos]
    rfl

theorem any_map_id (l : List α) (f : α → Bool) :
    (l.map f).any (fun b => b) = l.any f := by
  induction l with
  | nil => rfl
  | cons x xs ih => simp [ih]

theorem find?_mem_and_prop (p : α → Bool) :
    ∀ (l : List α) (a : α), l.find? p = some a → a ∈ l ∧ p a = true := by
  intro l
  induction l with
  | nil => intro a h; simp at h
  | cons x xs ih =>
    intro a h
    by_cases hp : p x
    · rw [List.find?_cons_of_pos _ hp] at h
      cases h
      exact ⟨List.mem_cons_self _ _, hp⟩
    · rw [List.find?_cons_of_neg _ hp] at h
      rcases ih a h with ⟨hm, hq⟩
      exact ⟨List.mem_cons_of_mem _ hm, hq⟩

theorem getElem?_map_listIndex (l : List α) (q : α → Bool) (f : α → β)
    (h : l.any q = true) :
    (l.map f)[listIndex true (l.map q)]? = (l.find? q).map f := by
  induction l with
  | nil => simp at h
  | cons x xs ih =>
    by_cases hq : q x
    · simp [listIndex, hq, List.find?_cons_of_pos _ hq]
    · have hx : xs.any q = true := by
        rcases (List.any_eq_true).mp h with ⟨a, ha, hqa⟩
        rcases List.mem_cons.mp ha with rfl | ha2
        · exact absurd hqa hq
        · exact (List.any_eq_true).mpr ⟨a, ha2, hqa⟩
      simp [listIndex, hq, List.find?_cons_of_neg _ hq, ih hx]

theorem matchKnown_find (tol : ℚ) (c : List ℚ) (pool : List (List ℚ × Nat))
    (h : ∀ pr ∈ pool, pr.1.length = c.length) :
    matchKnown (pool.map (fun pr => some pr.1)) (pool.map (fun pr => pr.2))
        (some c) tol
      = .ok ((pool.find? (fun pr => withinTol tol pr.1 c)).map (fun pr => pr.2)) := by
  cases pool with
  | nil => rfl
  | cons x xs =>
    have hcmp := compare_faces_pool tol c (x :: xs) h
    unfold matchKnown
    rw [if_neg (by simp), hcmp]
    show (if ((x :: xs).map (fun pr => withinTol tol pr.1 c)).any (fun b => b) then _ else _) = _
    have hmapany := any_map_id (x :: xs) (fun pr => withinTol tol pr.1 c)
    by_cases hany : (x :: xs).any (fun pr => withinTol tol pr.1 c) = true
    · rw [hmapany, if_pos hany,
        getElem?_map_listIndex (x :: xs) (fun pr => withinTol tol pr.1 c) (fun pr => pr.2) hany]
      rcases hf : (x :: xs).find? (fun pr => withinTol tol pr.1 c) with _ | pr
      · rcases (List.any_eq_true).mp hany with ⟨a, ha, hqa⟩
        rw [List.find?_eq_none] at hf
        exact absurd hqa (by simp [hf a ha])
      · rw [hf]
        rfl
    · rw [hmapany, if_neg hany]
      have hf : (x :: xs).find? (fun pr => withinTol tol pr.1 c) = none := by
        rw [List.find?_eq_none]
        intro a ha
        simp only [List.any_eq_true, not_exists, not_and] at hany
        simp [hany a ha]
      rw [hf]
      rfl

/-! ## Structural lemmas about the Re-clustering Engine -/

theorem map_skel_clearList (l : List Face) :
    (l.map (fun f => if autoFace f then { f with person_id := none } else f)).map
        faceSkel
      = l.map faceSkel := by
  induction l with
  | nil => rfl
  | cons x xs ih =>
    by_cases h : autoFace x <;> simp [h, ih, faceSkel]

/-- Full characterization of a successful re-clustering iteration: some
person id is written onto the face (by id) via `update_one`, and the
persons collection either stays put or gets exactly one appended
`"Person {count+1}"` record while the counter increments. -/
theorem reclusterFace_ok_spec (tol : ℚ) (reps : List (NpVec × Nat))
    (st : ClusterState) (face : Face) (st2 : ClusterState)
    (h : reclusterFace tol reps st face = .ok st2) :
    ∃ pid,
      st2.db.faces = updateFirst (fun g => g.id == face.id)
          (fun g => { g with person_id := some pid }) st.db.faces
      ∧ st2.db.images = st.db.images
      ∧ st2.processed = st.processed ++ [{ face with person_id := some pid }]
      ∧ ((st2.db.persons = st.db.persons
            ∧ st2.new_person_count = st.new_person_count)
         ∨ (st2.db.persons = st.db.persons ++
              [⟨st.db.nextId, "Person " ++ toString (st.new_person_count + 1),
                [], [], none⟩]
            ∧ st2.new_person_count = st.new_person_count + 1)) := by
  unfold reclusterFace at h
  split at h
  · exact absurd h (by simp)
  · split at h
    · exact absurd h (by simp)
    · split at h
      · exact absurd h (by simp)
      · rename_i m2 heq2
        cases m2 with
        | some pid =>
          simp only [Except.ok.injEq] at h
          refine ⟨pid, ?_, ?_, ?_, Or.inl ⟨?_, ?_⟩⟩ <;> rw [← h]
        | none =>
          simp only [Except.ok.injEq] at h
          refine ⟨st.db.nextId, ?_, ?_, ?_, Or.inr ⟨?_, ?_⟩⟩ <;> rw [← h]

theorem reclusterLoop_nil (tol : ℚ) (reps : List (NpVec × Nat))
    (st : ClusterState) : reclusterLoop tol reps [] st = (st, none) := rfl

theorem reclusterLoop_cons_ok (tol : ℚ) (reps : List (NpVec × Nat))
    (st st2 : ClusterState) (f : Face) (fs : List Face)
    (h : reclusterFace tol reps st f = .ok st2) :
    reclusterLoop tol reps (f :: fs) st = reclusterLoop tol reps fs st2 := by
  simp [reclusterLoop, h]

theorem reclusterLoop_cons_error (tol : ℚ) (reps : List (NpVec × Nat))
    (st : ClusterState) (f : Face) (fs : List Face) (msg : String)
    (h : reclusterFace tol reps st f = .error msg) :
    reclusterLoop tol reps (f :: fs) st = (st, some msg) := by
  simp [reclusterLoop, h]

theorem foldl_preserve {α β γ : Type} (φ : α → γ) (step : α → β → α)
    (hstep : ∀ d x, φ (step d x) = φ d) :
    ∀ (ids : List β) (d : α), φ (ids.foldl step d) = φ d := by
  intro ids
  induction ids with
  | nil => intro d; rfl
  | cons x xs ih =>
    intro d
    rw [List.foldl_cons, ih, hstep]

theorem mem_of_getElem? {l : List α} {i : Nat} {a : α}
    (h : l[i]? = some a) : a ∈ l := by
  rcases List.getElem?_eq_some.mp h with ⟨hi, hg⟩
  rw [← hg]
  exact List.getElem_mem hi

theorem nodup_getElem?_inj {l : List α} (hnd : l.Nodup) (i j : Nat) (a : α)
    (hi : l[i]? = some a) (hj : l[j]? = some a) : i = j := by
  rcases List.getElem?_eq_some.mp hi with ⟨hi2, hgi⟩
  rcases List.getElem?_eq_some.mp hj with ⟨hj2, hgj⟩
  have : l.get ⟨i, hi2⟩ = l.get ⟨j, hj2⟩ := by
    simp only [List.get_eq_getElem, hgi, hgj]
  have := (List.Nodup.get_inj_iff hnd).mp this
  exact congrArg Fin.val this

theorem skel_at (l1 l2 : List Face)
    (hskel : l1.map faceSkel = l2.map faceSkel) (i : Nat) (f1 f2 : Face)
    (h1 : l1[i]? = some f1) (h2 : l2[i]? = some f2) :
    faceSkel f1 = faceSkel f2 := by
  have := congrArg (fun l => l[i]?) hskel
  simp only [List.getElem?_map, h1, h2, Option.map_some] at this
  exact Option.some.injEq _ _ ▸ this

theorem length_of_map_skel (l1 l2 : List Face)
    (hskel : l1.map faceSkel = l2.map faceSkel) : l1.length = l2.length := by
  have := congrArg List.length hskel
  simpa using this

/-- Invariants of the whole re-clustering loop, including its partial
states on the error path: face skeletons and images are untouched and the
persons collection only grows by appended records. -/
theorem reclusterLoop_inv (tol : ℚ) (reps : List (NpVec × Nat)) :
    ∀ (fs : List Face) (st : ClusterState),
    ((reclusterLoop tol reps fs st).1.db.faces.map faceSkel
        = st.db.faces.map faceSkel)
    ∧ ((reclusterLoop tol reps fs st).1.db.images = st.db.images)
    ∧ (∃ ps, (reclusterLoop tol reps fs st).1.db.persons = st.db.persons ++ ps) := by
  intro fs
  induction fs with
  | nil =>
    intro st
    rw [reclusterLoop_nil]
    exact ⟨rfl, rfl, ⟨[], by simp⟩⟩
  | cons f fs ih =>
    intro st
    cases hstep : reclusterFace tol reps st f with
    | error msg =>
      rw [reclusterLoop_cons_error tol reps st f fs msg hstep]
      exact ⟨rfl, rfl, ⟨[], by simp⟩⟩
    | ok st2 =>
      rw [reclusterLoop_cons_ok tol reps st st2 f fs hstep]
      rcases reclusterFace_ok_spec _ _ _ _ _ hstep with ⟨pid, hfaces, himg, _, hpers⟩
      rcases ih st2 with ⟨ihskel, ihimg, ⟨ps2, ihpers⟩⟩
      refine ⟨?_, ?_, ?_⟩
      · rw [ihskel, hfaces,
          map_updateFirst faceSkel (fun g => g.id == f.id)
            (fun g => { g with person_id := some pid }) (fun a => rfl) st.db.faces]
      · rw [ihimg, himg]
      · rcases hpers with ⟨hp, _⟩ | ⟨hp, _⟩
        · exact ⟨ps2, by rw [ihpers, hp]⟩
        · refine ⟨⟨st.db.nextId, "Person " ++ toString (st.new_person_count + 1),
            [], [], none⟩ :: ps2, ?_⟩
          rw [ihpers, hp]
          simp

theorem range_names_shift (c k : Nat) :
    ("Person " ++ toString (c + 1)) ::
        (List.range k).map (fun j => "Person " ++ toString (c + 1 + 1 + j))
      = (List.range (k + 1)).map (fun j => "Person " ++ toString (c + 1 + j)) := by
  rw [List.range_succ_eq_map, List.map_cons, List.map_map]
  congr 1
  apply List.map_congr_left
  intro a _
  simp only [Function.comp]
  congr 2
  omega

/-- Names produced by the re-clustering loop: existing person records keep
their names, and the `k` persons created by the loop are named
`"Person {new_person_count + 1}" …` in sequence from the counter the loop
started with. -/
theorem reclusterLoop_names (tol : ℚ) (reps : List (NpVec × Nat)) :
    ∀ (fs : List Face) (st : ClusterState), ∃ k,
    ((reclusterLoop tol reps fs st).1.db.persons.map Person.name
        = st.db.persons.map Person.name
          ++ (List.range k).map
            (fun j => "Person " ++ toString (st.new_person_count + 1 + j)))
    ∧ (reclusterLoop tol reps fs st).1.new_person_count
        = st.new_person_count + k := by
  intro fs
  induction fs with
  | nil =>
    intro st
    rw [reclusterLoop_nil]
    exact ⟨0, by simp, by simp⟩
  | cons f fs ih =>
    intro st
    cases hstep : reclusterFace tol reps st f with
    | error msg =>
      rw [reclusterLoop_cons_error tol reps st f fs msg hstep]
      exact ⟨0, by simp, by simp⟩
    | ok st2 =>
      rw [reclusterLoop_cons_ok tol reps st st2 f fs hstep]
      rcases reclusterFace_ok_spec _ _ _ _ _ hstep with ⟨pid, _, _, _, hpers⟩
      rcases ih st2 with ⟨k, hnames, hcnt⟩
      rcases hpers with ⟨hp, hc⟩ | ⟨hp, hc⟩
      · exact ⟨k, by rw [hnames, hp, hc], by rw [hcnt, hc]⟩
      · refine ⟨k + 1, ?_, ?_⟩
        · rw [hnames, hp]
          simp only [hc, List.map_append, List.map_cons, List.map_nil,
            List.append_assoc, List.cons_append, List.nil_append]
          rw [range_names_shift st.new_person_count k]
        · rw [hcnt, hc]
          omega

/-- The re-clustering loop never rewrites a manually-assigned face's
`person_id`: the clearing filter excludes manual faces and every
`update_one` of the loop targets the id of a selected automatic face. -/
theorem reclusterLoop_manual (tol : ℚ) (reps : List (NpVec × Nat))
    (orig : List Face) (hnd : (orig.map (fun f => f.id)).Nodup) :
    ∀ (fs : List Face) (st : ClusterState),
    (∀ f ∈ fs, f ∈ orig ∧ autoFace f = true) →
    st.db.faces.map faceSkel = orig.map faceSkel →
    ManualOK orig st.db.faces →
    ManualOK orig (reclusterLoop tol reps fs st).1.db.faces := by
  intro fs
  induction fs with
  | nil => intro st _ _ hok; exact hok
  | cons f fs ih =>
    intro st hfs hskel hok
    cases hstep : reclusterFace tol reps st f with
    | error msg =>
      rw [reclusterLoop_cons_error tol reps st f fs msg hstep]
      exact hok
    | ok st2 =>
      rw [reclusterLoop_cons_ok tol reps st st2 f fs hstep]
      rcases reclusterFace_ok_spec _ _ _ _ _ hstep with ⟨pid, hfaces, _, _, _⟩
      have hskel2 : st2.db.faces.map faceSkel = orig.map faceSkel := by
        rw [hfaces,
          map_updateFirst faceSkel (fun g => g.id == f.id)
            (fun g => { g with person_id := some pid }) (fun a => rfl) st.db.faces,
          hskel]
      have hok2 : ManualOK orig st2.db.faces := by
        intro i fo fc2 hio hic2 hman
        have hlen : st.db.faces.length = orig.length := length_of_map_skel _ _ hskel
        have hi : i < orig.length := (List.getElem?_eq_some.mp hio).1
        have hi2 : i < st.db.faces.length := by rw [hlen]; exact hi
        obtain ⟨fc, hic⟩ : ∃ fc, st.db.faces[i]? = some fc :=
          ⟨st.db.faces[i], List.getElem?_eq_some.mpr ⟨hi2, rfl⟩⟩
        have hskelat : faceSkel fc = faceSkel fo := skel_at _ _ hskel i fc fo hic hio
        rcases getElem?_updateFirst (fun g => g.id == f.id)
            (fun g => { g with person_id := some pid }) st.db.faces i fc hic with
          hsame | ⟨hng, hpred⟩
        · rw [hfaces] at hic2
          rw [hsame] at hic2
          injection hic2 with hfc
          rw [← hfc]
          exact hok i fo fc hio hic hman
        · exfalso
          have hfid : fc.id = f.id := by simpa using hpred
          have hfo_id : fo.id = fc.id := by
            have := congrArg (fun pr => pr.1) hskelat
            simpa [faceSkel] using this.symm
          rcases hfs f (List.mem_cons_self _ _) with ⟨hforig, hauto⟩
          rcases List.get_of_mem hforig with ⟨⟨j, hj⟩, hgj⟩
          have hjo : orig[j]? = some f := by
            rw [List.getElem?_eq_some]
            exact ⟨hj, by simpa using hgj⟩
          have hIdi : (orig.map (fun g => g.id))[i]? = some fo.id := by
            rw [List.getElem?_map, hio]
            rfl
          have hIdj : (orig.map (fun g => g.id))[j]? = some fo.id := by
            rw [List.getElem?_map, hjo]
            simp [hfo_id, hfid]
          have hij : i = j := nodup_getElem?_inj hnd i j fo.id hIdi hIdj
          subst hij
          rw [hio] at hjo
          injection hjo with hfo
          rw [← hfo] at hauto
          rw [autoFace, hman] at hauto
          simp at hauto
      exact ih st2 (fun g hg => hfs g (List.mem_cons_of_mem _ hg)) hskel2 hok2

theorem rebuildPersons_faces (now : String) (d : DB) :
    (rebuildPersons now d).faces = d.faces := by
  unfold rebuildPersons
  apply foldl_preserve DB.faces
  intro d2 x
  rfl

theorem rebuildPersons_persons_map {γ : Type} (φ : Person → γ) (now : String)
    (hφ : ∀ (p : Person) (fi ii : List Nat),
      φ { p with faces := fi, images := ii, updated_at := some now } = φ p)
    (d : DB) :
    (rebuildPersons now d).persons.map φ = d.persons.map φ := by
  unfold rebuildPersons
  generalize dedupKeepFirst (d.faces.filterMap (fun f => f.person_id)) = ids
  induction ids generalizing d with
  | nil => rfl
  | cons x xs ih =>
    rw [List.foldl_cons, ih]
    exact map_updateFirst φ _ _ (fun a => hφ a _ _) d.persons

theorem rebuildPersons_personPN (now : String) (d : DB) :
    (rebuildPersons now d).persons.map personPN = d.persons.map personPN :=
  rebuildPersons_persons_map personPN now (fun p fi ii => rfl) d

theorem rebuildPersons_names (now : String) (d : DB) :
    (rebuildPersons now d).persons.map Person.name
      = d.persons.map Person.name :=
  rebuildPersons_persons_map Person.name now (fun p fi ii => rfl) d

theorem rebuildImages_faces (d : DB) : (rebuildImages d).faces = d.faces := rfl

theorem rebuildImages_persons (d : DB) : (rebuildImages d).persons = d.persons := rfl

/-- `cluster_faces` never rewrites a face's identity, embedding, owning
image or manual flag — on any of its exit paths. -/
theorem cluster_faces_faces_skel (tol : ℚ) (now : String) (db : DB) :
    (cluster_faces tol now db).1.faces.map faceSkel = db.faces.map faceSkel := by
  unfold cluster_faces
  split
  · dsimp only
    split
    · rfl
    · split
      · rfl
      · rfl
  · rename_i reps hreps
    dsimp only
    split
    · rfl
    · split
      · rfl
      · have hclear : (clearAuto db).faces.map faceSkel = db.faces.map faceSkel :=
          map_skel_clearList db.faces
        have hinv := (reclusterLoop_inv tol reps (db.faces.filter autoFace)
          ⟨clearAuto db, [], reps.length⟩).1
        split
        · rename_i st msg hloop
          rw [hloop] at hinv
          exact hinv.trans hclear
        · rename_i st hloop
          rw [hloop] at hinv
          show (rebuildImages (rebuildPersons now st.db)).faces.map faceSkel = _
          rw [rebuildImages_faces, rebuildPersons_faces]
          exact hinv.trans hclear

/-- `cluster_faces` never deletes or renames an existing person record:
the persons collection of the result maps to the original `(id, name)`
pairs followed by those of the persons created during the pass. -/
theorem cluster_faces_personPN (tol : ℚ) (now : String) (db : DB) :
    ∃ ext, (cluster_faces tol now db).1.persons.map personPN
      = db.persons.map personPN ++ ext := by
  unfold cluster_faces
  split
  · dsimp only
    split
    · exact ⟨[], by simp⟩
    · split
      · exact ⟨[], by simp⟩
      · exact ⟨[], by simp⟩
  · rename_i reps hreps
    dsimp only
    split
    · exact ⟨[], by simp⟩
    · split
      · exact ⟨[], by simp⟩
      · rcases (reclusterLoop_inv tol reps (db.faces.filter autoFace)
          ⟨clearAuto db, [], reps.length⟩).2.2 with ⟨ps, hps⟩
        split
        · rename_i st msg hloop
          rw [hloop] at hps
          refine ⟨ps.map personPN, ?_⟩
          show st.db.persons.map personPN = _
          rw [hps]
          simp [clearAuto]
        · rename_i st hloop
          rw [hloop] at hps
          refine ⟨ps.map personPN, ?_⟩
          show (rebuildImages (rebuildPersons now st.db)).persons.map personPN = _
          rw [rebuildImages_persons, rebuildPersons_personPN, hps]
          simp [clearAuto]

/-- The names of the persons present after `cluster_faces`: the original
names in order, then `"Person {r+1}", "Person {r+2}", …` for the persons
the pass created, where `r` is the number of pre-existing persons that had
at least one assigned face (`repsCount`), not the total person count. -/
theorem cluster_faces_names (tol : ℚ) (now : String) (db : DB) :
    ∃ k, (cluster_faces tol now db).1.persons.map Person.name
      = db.persons.map Person.name
        ++ (List.range k).map
          (fun j => "Person " ++ toString (repsCount db + 1 + j)) := by
  unfold cluster_faces
  split
  · dsimp only
    split
    · exact ⟨0, by simp⟩
    · split
      · exact ⟨0, by simp⟩
      · exact ⟨0, by simp⟩
  · rename_i reps hreps
    dsimp only
    split
    · exact ⟨0, by simp⟩
    · split
      · exact ⟨0, by simp⟩
      · have hrc : repsCount db = reps.length := by
          unfold repsCount
          rw [hreps]
        rcases reclusterLoop_names tol reps (db.faces.filter autoFace)
          ⟨clearAuto db, [], reps.length⟩ with ⟨k, hnames, _⟩
        split
        · rename_i st msg hloop
          rw [hloop] at hnames
          refine ⟨k, ?_⟩
          show st.db.persons.map Person.name = _
          rw [hnames, hrc]
          simp [clearAuto]
        · rename_i st hloop
          rw [hloop] at hnames
          refine ⟨k, ?_⟩
          show (rebuildImages (rebuildPersons now st.db)).persons.map Person.name = _
          rw [rebuildImages_persons, rebuildPersons_names, hnames, hrc]
          simp [clearAuto]

/-- A single `cluster_faces` call preserves the `person_id` of every
manually-assigned face, position-wise (given distinct face ids, as Mongo
guarantees for `_id`). -/
theorem cluster_faces_manualOK (tol : ℚ) (now : String) (db : DB)
    (hnd : (db.faces.map (fun f => f.id)).Nodup) :
    ManualOK db.faces (cluster_faces tol now db).1.faces := by
  have hrefl : ManualOK db.faces db.faces := by
    intro i f fc h1 h2 _
    rw [h1] at h2
    injection h2 with h3
    rw [h3]
  unfold cluster_faces
  split
  · dsimp only
    split
    · exact hrefl
    · split
      · exact hrefl
      · exact hrefl
  · rename_i reps hreps
    dsimp only
    split
    · exact hrefl
    · split
      · exact hrefl
      · have hclearskel : (clearAuto db).faces.map faceSkel
            = db.faces.map faceSkel := map_skel_clearList db.faces
        have hclearok : ManualOK db.faces (clearAuto db).faces := by
          intro i f fc h1 h2 hman
          have hmap : (clearAuto db).faces[i]?
              = (db.faces[i]?).map
                  (fun f => if autoFace f then { f with person_id := none } else f) := by
            show (db.faces.map _)[i]? = _
            rw [List.getElem?_map]
          rw [hmap, h1] at h2
          have hauto : autoFace f = false := by
            rw [autoFace, hman]
            rfl
          rw [Option.map_some'] at h2
          rw [hauto] at h2
          simp only [Bool.false_eq_true, if_false] at h2
          injection h2 with h3
          rw [← h3]
        have hok := reclusterLoop_manual tol reps db.faces hnd
          (db.faces.filter autoFace) ⟨clearAuto db, [], reps.length⟩
          (fun g hg => ⟨List.mem_of_mem_filter hg, List.of_mem_filter hg⟩)
          hclearskel hclearok
        split
        · rename_i st msg hloop
          rw [hloop] at hok
          exact hok
        · rename_i st hloop
          rw [hloop] at hok
          show ManualOK db.faces (rebuildImages (rebuildPersons now st.db)).faces
          rw [rebuildImages_faces, rebuildPersons_faces]
          exact hok

/-! ## Claim C3 -/

/-- C3: confirmed.  For every candidate embedding `c`, every ordered pool of
`(embedding, person_id)` pairs (of the candidate's dimension) and every
tolerance, the matcher returns — without error — the person id of the
*first* pool entry within tolerance (`withinTol tol e c` is the exact
square-root-free Boolean of Euclidean distance ≤ tol), it returns a match
iff some entry is within tolerance, and existence of a match is invariant
under permutation of the pool. -/
theorem identity_matcher_spec (pool pool2 : List (List ℚ × Nat)) (c : List ℚ)
    (tol : ℚ) (hdim : ∀ pr ∈ pool, pr.1.length = c.length)
    (hperm : pool.Perm pool2) :
    matchKnown (pool.map (fun pr => some pr.1)) (pool.map (fun pr => pr.2))
        (some c) tol
      = .ok ((pool.find? (fun pr => withinTol tol pr.1 c)).map (fun pr => pr.2))
    ∧ ((∃ pr ∈ pool, withinTol tol pr.1 c = true) ↔
        ∃ pid, matchKnown (pool.map (fun pr => some pr.1))
          (pool.map (fun pr => pr.2)) (some c) tol = .ok (some pid))
    ∧ ((∃ pr ∈ pool, withinTol tol pr.1 c = true) ↔
        (∃ pr ∈ pool2, withinTol tol pr.1 c = true)) := by
  refine ⟨matchKnown_find tol c pool hdim, ?_, ?_⟩
  · rw [matchKnown_find tol c pool hdim]
    constructor
    · rintro ⟨pr, hmem, hq⟩
      have hs : (pool.find? (fun pr => withinTol tol pr.1 c)).isSome := by
        rw [List.find?_isSome]
        exact ⟨pr, hmem, hq⟩
      rcases Option.isSome_iff_exists.mp hs with ⟨pr2, hf⟩
      refine ⟨pr2.2, ?_⟩
      rw [hf]
      rfl
    · rintro ⟨pid, hok⟩
      rcases hf : pool.find? (fun pr => withinTol tol pr.1 c) with _ | pr2
      · rw [hf] at hok
        simp at hok
      · rcases find?_mem_and_prop _ pool pr2 hf with ⟨hm, hq⟩
        exact ⟨pr2, hm, hq⟩
  · constructor
    · rintro ⟨pr, hmem, hq⟩
      exact ⟨pr, hperm.subset hmem, hq⟩
    · rintro ⟨pr, hmem, hq⟩
      exact ⟨pr, hperm.symm.subset hmem, hq⟩

/-- Witness for C3 at a concrete pool, candidate `[0]` and tolerance 3/5. -/
theorem identity_matcher_spec_witness :
    matchKnown (poolW.map (fun pr => some pr.1)) (poolW.map (fun pr => pr.2))
        (some [0]) (3/5)
      = .ok ((poolW.find? (fun pr => withinTol (3/5) pr.1 [0])).map (fun pr => pr.2))
    ∧ ((∃ pr ∈ poolW, withinTol (3/5) pr.1 [0] = true) ↔
        ∃ pid, matchKnown (poolW.map (fun pr => some pr.1))
          (poolW.map (fun pr => pr.2)) (some [0]) (3/5) = .ok (some pid))
    ∧ ((∃ pr ∈ poolW, withinTol (3/5) pr.1 [0] = true) ↔
        (∃ pr ∈ poolW2, withinTol (3/5) pr.1 [0] = true)) :=
  identity_matcher_spec poolW poolW2 [0] (3/5) (by decide) (by decide)

/-! ## Structural lemmas about the Assignment Engine -/

theorem ingestLoop_nil (tol : ℚ) (now : String) (imgid : Nat) (st : IngState) :
    ingestLoop tol now imgid [] st = (st, none) := rfl

theorem ingestLoop_cons_ok (tol : ℚ) (now : String) (imgid : Nat)
    (st st2 : IngState) (e : List ℚ) (es : List (List ℚ))
    (h : ingestFace tol now imgid st e = .ok st2) :
    ingestLoop tol now imgid (e :: es) st = ingestLoop tol now imgid es st2 := by
  simp [ingestLoop, h]

theorem ingestLoop_cons_error (tol : ℚ) (now : String) (imgid : Nat)
    (st : IngState) (e : List ℚ) (es : List (List ℚ)) (msg : String)
    (h : ingestFace tol now imgid st e = .error msg) :
    ingestLoop tol now imgid (e :: es) st = (st, some msg) := by
  simp [ingestLoop, h]

/-- Characterization of one successful upload-loop iteration: the face is
assigned some person id, the `(encoding, person_id)` pair is appended to
the pool, the step is recorded with the pool it consulted, and the persons
collection either keeps its names or gains exactly
`"Person {count + 1}"`. -/
theorem ingestFace_ok_spec (tol : ℚ) (now : String) (imgid : Nat)
    (st : IngState) (e : List ℚ) (st2 : IngState)
    (h : ingestFace tol now imgid st e = .ok st2) :
    ∃ pid fid,
      st2.pool = st.pool ++ [(e, pid)]
      ∧ st2.steps = st.steps ++ [⟨st.pool, e, pid, fid⟩]
      ∧ ((st2.db.persons.map Person.name = st.db.persons.map Person.name
            ∧ st2.db.persons.length = st.db.persons.length)
         ∨ (st2.db.persons.map Person.name
              = st.db.persons.map Person.name
                ++ ["Person " ++ toString (st.db.persons.length + 1)]
            ∧ st2.db.persons.length = st.db.persons.length + 1)) := by
  unfold ingestFace at h
  split at h
  · exact absurd h (by simp)
  · rename_i mOpt heq
    cases mOpt with
    | some pid =>
      simp only [Except.ok.injEq] at h
      subst h
      refine ⟨pid, st.db.nextId, rfl, rfl, Or.inl ⟨?_, ?_⟩⟩
      · dsimp only
        apply map_updateFirst
        intro a
        rfl
      · dsimp only
        apply updateFirst_length
    | none =>
      simp only [Except.ok.injEq] at h
      subst h
      refine ⟨st.db.nextId, st.db.nextId + 1, rfl, rfl, Or.inr ⟨?_, ?_⟩⟩
      · dsimp only
        rw [map_updateFirst Person.name]
        · simp
        · intro a
          rfl
      · dsimp only
        rw [updateFirst_length]
        simp

/-- Names produced by the upload loop: new persons are named from the
*current* size of the persons collection, `"Person {len+1}"` onwards. -/
theorem ingestLoop_names (tol : ℚ) (now : String) (imgid : Nat) :
    ∀ (es : List (List ℚ)) (st : IngState), ∃ k,
    ((ingestLoop tol now imgid es st).1.db.persons.map Person.name
        = st.db.persons.map Person.name
          ++ (List.range k).map
            (fun j => "Person " ++ toString (st.db.persons.length + 1 + j)))
    ∧ (ingestLoop tol now imgid es st).1.db.persons.length
        = st.db.persons.length + k := by
  intro es
  induction es with
  | nil =>
    intro st
    rw [ingestLoop_nil]
    exact ⟨0, by simp, by simp⟩
  | cons e es ih =>
    intro st
    cases hstep : ingestFace tol now imgid st e with
    | error msg =>
      rw [ingestLoop_cons_error tol now imgid st e es msg hstep]
      exact ⟨0, by simp, by simp⟩
    | ok st2 =>
      rw [ingestLoop_cons_ok tol now imgid st st2 e es hstep]
      rcases ingestFace_ok_spec tol now imgid st e st2 hstep with
        ⟨pid, fid, _, _, hpers⟩
      rcases ih st2 with ⟨k, hnames, hlen⟩
      rcases hpers with ⟨hp, hc⟩ | ⟨hp, hc⟩
      · exact ⟨k, by rw [hnames, hp, hc], by rw [hlen, hc]⟩
      · refine ⟨k + 1, ?_, ?_⟩
        · rw [hnames, hp]
          simp only [hc, List.append_assoc, List.cons_append, List.nil_append]
          rw [range_names_shift st.db.persons.length k]
        · rw [hlen, hc]
          omega

/-- The pool invariant of the upload loop: every recorded step consulted
exactly the starting pool extended by the assignments made before it. -/
theorem ingestLoop_steps (tol : ℚ) (now : String) (imgid : Nat) :
    ∀ (es : List (List ℚ)) (st : IngState) (P0 : List (List ℚ × Nat)),
    st.pool = P0 ++ st.steps.map (fun s => (s.encoding, s.person_id)) →
    (∀ (i : Nat) (s : IngStep), st.steps[i]? = some s →
      s.pool = P0 ++ (st.steps.take i).map (fun s2 => (s2.encoding, s2.person_id))) →
    ∀ (i : Nat) (s : IngStep),
      (ingestLoop tol now imgid es st).1.steps[i]? = some s →
      s.pool = P0 ++ ((ingestLoop tol now imgid es st).1.steps.take i).map
        (fun s2 => (s2.encoding, s2.person_id)) := by
  intro es
  induction es with
  | nil =>
    intro st P0 hpool hsteps i s hs
    rw [ingestLoop_nil] at hs ⊢
    exact hsteps i s hs
  | cons e es ih =>
    intro st P0 hpool hsteps i s hs
    cases hstep : ingestFace tol now imgid st e with
    | error msg =>
      rw [ingestLoop_cons_error tol now imgid st e es msg hstep] at hs ⊢
      exact hsteps i s hs
    | ok st2 =>
      rw [ingestLoop_cons_ok tol now imgid st st2 e es hstep] at hs ⊢
      rcases ingestFace_ok_spec tol now imgid st e st2 hstep with
        ⟨pid, fid, hpool2, hsteps2, _⟩
      refine ih st2 P0 ?_ ?_ i s hs
      · rw [hpool2, hsteps2, hpool]
        simp
      · intro i2 s2 hs2
        rw [hsteps2] at hs2 ⊢
        rw [List.getElem?_append] at hs2
        by_cases hi2 : i2 < st.steps.length
        · rw [if_pos hi2] at hs2
          rw [List.take_append_eq_append_take]
          have hz : i2 - st.steps.length = 0 := by omega
          rw [hz]
          simp only [List.take_zero, List.append_nil]
          exact hsteps i2 s2 hs2
        · rw [if_neg hi2] at hs2
          rcases Nat.lt_or_ge (i2 - st.steps.length) 1 with hlt | hge2
          · have hz : i2 - st.steps.length = 0 := by omega
            rw [hz] at hs2
            simp only [List.getElem?_cons_zero] at hs2
            injection hs2 with hseq
            rw [← hseq]
            show st.pool = _
            rw [hpool]
            have hi2eq : i2 = st.steps.length := by omega
            rw [hi2eq, List.take_append_eq_append_take]
            simp
          · have hlen1 : ([(⟨st.pool, e, pid, fid⟩ : IngStep)] : List IngStep).length
                ≤ i2 - st.steps.length := by simpa using hge2
            rw [List.getElem?_eq_none hlen1] at hs2
            exact absurd hs2 (by simp)

/-- The upload loop cannot fail when every pool entry has the dimension of
the detected encodings: in particular stored faces *without* embeddings
(which never enter the pool) cannot make the upload error. -/
theorem ingestFace_total (tol : ℚ) (now : String) (imgid : Nat)
    (st : IngState) (e : List ℚ)
    (h : ∀ pr ∈ st.pool, pr.1.length = e.length) :
    ∃ st2, ingestFace tol now imgid st e = .ok st2 := by
  unfold ingestFace
  rw [matchKnown_find tol e st.pool h]
  rcases hf : st.pool.find? (fun pr => withinTol tol pr.1 e) with _ | pr <;>
    rw [hf] <;> exact ⟨_, rfl⟩

theorem ingestLoop_ok (tol : ℚ) (now : String) (imgid : Nat) (d : Nat) :
    ∀ (es : List (List ℚ)) (st : IngState),
    (∀ pr ∈ st.pool, pr.1.length = d) → (∀ e2 ∈ es, e2.length = d) →
    (ingestLoop tol now imgid es st).2 = none := by
  intro es
  induction es with
  | nil =>
    intro st _ _
    rw [ingestLoop_nil]
  | cons e es ih =>
    intro st hpool hes
    have hed : e.length = d := hes e (List.mem_cons_self _ _)
    rcases ingestFace_total tol now imgid st e
        (fun pr hpr => (hpool pr hpr).trans hed.symm) with ⟨st2, hok⟩
    rw [ingestLoop_cons_ok tol now imgid st st2 e es hok]
    rcases ingestFace_ok_spec tol now imgid st e st2 hok with
      ⟨pid, fid, hpool2, _, _⟩
    refine ih st2 ?_ (fun e2 he2 => hes e2 (List.mem_cons_of_mem _ he2))
    intro pr hpr
    rw [hpool2] at hpr
    rcases List.mem_append.mp hpr with hl | hr
    · exact hpool pr hl
    · rcases List.mem_singleton.mp hr with rfl
      exact hed

/-! ## Claim C2: amended -/

/-- C2 amended: `cluster_faces` never deletes any Person record.  Every
person of the original store is still present afterwards, with its id and
name intact; a person whose faces were all re-matched elsewhere therefore
remains as a stale record instead of being deleted during the rebuild
pass (the rebuild only `$set`s persons that currently own a face). -/
theorem recluster_never_deletes_person (tol : ℚ) (now : String) (db : DB)
    (p : Person) (hp : p ∈ db.persons) :
    ∃ p2, p2 ∈ (cluster_faces tol now db).1.persons
      ∧ p2.id = p.id ∧ p2.name = p.name := by
  rcases cluster_faces_personPN tol now db with ⟨ext, hext⟩
  have hmem : personPN p ∈ (cluster_faces tol now db).1.persons.map personPN := by
    rw [hext]
    exact List.mem_append_left _ (List.mem_map_of_mem _ hp)
  rcases List.mem_map.mp hmem with ⟨p2, hp2, hpn⟩
  exact ⟨p2, hp2, congrArg Prod.fst hpn, congrArg Prod.snd hpn⟩

/-- Witness for the amended C2 at `dbTwinPersons` and its person 2. -/
theorem recluster_never_deletes_person_witness :
    ∃ p2, p2 ∈ (cluster_faces (3/5) "t1" dbTwinPersons).1.persons
      ∧ p2.id = 2 ∧ p2.name = "Bob" :=
  recluster_never_deletes_person (3/5) "t1" dbTwinPersons
    ⟨2, "Bob", [2], [10], none⟩ (by decide)

/-! ## Claim C4 -/

/-- Invariants of iterating `cluster_faces`: face skeletons, manual
`person_id`s and existing `(id, name)` person pairs survive any number of
re-clustering passes. -/
theorem cluster_iterate_inv (tol : ℚ) (now : String) (db : DB)
    (hnd : (db.faces.map (fun f => f.id)).Nodup) : ∀ n : Nat,
    (((fun d => (cluster_faces tol now d).1)^[n] db).faces.map faceSkel
        = db.faces.map faceSkel)
    ∧ ManualOK db.faces ((fun d => (cluster_faces tol now d).1)^[n] db).faces
    ∧ ∃ ext, ((fun d => (cluster_faces tol now d).1)^[n] db).persons.map personPN
        = db.persons.map personPN ++ ext := by
  intro n
  induction n with
  | zero =>
    refine ⟨rfl, ?_, ⟨[], by simp⟩⟩
    intro i f fc h1 h2 _
    simp only [Function.iterate_zero, id_eq] at h2
    rw [h1] at h2
    injection h2 with h3
    rw [h3]
  | succ n ih =>
    rcases ih with ⟨ihskel, ihman, ⟨ext, ihpn⟩⟩
    have hstep : (fun d => (cluster_faces tol now d).1)^[n+1] db
        = (cluster_faces tol now ((fun d => (cluster_faces tol now d).1)^[n] db)).1 :=
      Function.iterate_succ_apply' _ n db
    set dbn := (fun d => (cluster_faces tol now d).1)^[n] db with hdbn
    have hndn : (dbn.faces.map (fun f => f.id)).Nodup := by
      have hids : dbn.faces.map (fun f => f.id) = db.faces.map (fun f => f.id) := by
        have h1 : dbn.faces.map (fun f => f.id)
            = (dbn.faces.map faceSkel).map (fun pr => pr.1) := by
          rw [List.map_map]
          rfl
        have h2 : db.faces.map (fun f => f.id)
            = (db.faces.map faceSkel).map (fun pr => pr.1) := by
          rw [List.map_map]
          rfl
        rw [h1, h2, ihskel]
      rw [hids]
      exact hnd
    refine ⟨?_, ?_, ?_⟩
    · rw [hstep, cluster_faces_faces_skel, ihskel]
    · rw [hstep]
      intro i f fc h1 h2 hman
      have hlen : dbn.faces.length = db.faces.length := by
        have := congrArg List.length ihskel
        simpa using this
      have hi : i < db.faces.length := (List.getElem?_eq_some.mp h1).1
      have hi2 : i < dbn.faces.length := by rw [hlen]; exact hi
      obtain ⟨fn, hfn⟩ : ∃ fn, dbn.faces[i]? = some fn :=
        ⟨dbn.faces[i], List.getElem?_eq_some.mpr ⟨hi2, rfl⟩⟩
      have hskeln : faceSkel fn = faceSkel f := skel_at _ _ ihskel i fn f hfn h1
      have hmann : fn.is_manual_assignment = some true := by
        have := congrArg (fun pr => pr.2.2.2) hskeln
        simp only [faceSkel] at this
        rw [this, hman]
      have h1n := ihman i f fn h1 hfn hman
      have h2n := cluster_faces_manualOK tol now dbn hndn i fn fc hfn h2 hmann
      rw [h2n, h1n]
    · rcases cluster_faces_personPN tol now dbn with ⟨ext2, hext2⟩
      refine ⟨ext ++ ext2, ?_⟩
      rw [hstep, hext2, ihpn, List.append_assoc]

/-- C4: confirmed.  A face marked `is_manual_assignment = true` keeps its
`person_id` through any number of `recluster()` calls, and no existing
Person is ever renamed (new persons are only appended, the rebuild pass
writes `faces`/`images`/`updated_at` but never `name`).  Face ids are
assumed distinct, as Mongo guarantees for `_id`. -/
theorem recluster_preserves_manual_and_names (tol : ℚ) (now : String)
    (db : DB) (n : Nat) (hnd : (db.faces.map (fun f => f.id)).Nodup) :
    (∀ f ∈ db.faces, f.is_manual_assignment = some true →
      ∃ f2, f2 ∈ ((fun d => (cluster_faces tol now d).1)^[n] db).faces
        ∧ f2.id = f.id ∧ f2.person_id = f.person_id
        ∧ f2.is_manual_assignment = some true)
    ∧ (∀ p ∈ db.persons,
      ∃ p2, p2 ∈ ((fun d => (cluster_faces tol now d).1)^[n] db).persons
        ∧ p2.id = p.id ∧ p2.name = p.name) := by
  rcases cluster_iterate_inv tol now db hnd n with ⟨hskel, hman, ⟨ext, hpn⟩⟩
  constructor
  · intro f hf hmanf
    rcases List.get_of_mem hf with ⟨⟨i, hi⟩, hgi⟩
    have h1 : db.faces[i]? = some f :=
      List.getElem?_eq_some.mpr ⟨hi, by simpa using hgi⟩
    have hlen : ((fun d => (cluster_faces tol now d).1)^[n] db).faces.length
        = db.faces.length := by
      have := congrArg List.length hskel
      simpa using this
    have hi2 : i < ((fun d => (cluster_faces tol now d).1)^[n] db).faces.length := by
      rw [hlen]; exact hi
    obtain ⟨f2, hf2⟩ :
        ∃ f2, ((fun d => (cluster_faces tol now d).1)^[n] db).faces[i]? = some f2 :=
      ⟨_, List.getElem?_eq_some.mpr ⟨hi2, rfl⟩⟩
    have hskel2 : faceSkel f2 = faceSkel f := skel_at _ _ hskel i f2 f hf2 h1
    have hid : f2.id = f.id := congrArg (fun pr => pr.1) hskel2
    have hmanf2 : f2.is_manual_assignment = some true := by
      have := congrArg (fun pr => pr.2.2.2) hskel2
      simp only [faceSkel] at this
      rw [this, hmanf]
    have hpid := hman i f f2 h1 hf2 hmanf
    exact ⟨f2, mem_of_getElem? hf2, hid, hpid, hmanf2⟩
  · intro p hp
    have hmem : personPN p
        ∈ ((fun d => (cluster_faces tol now d).1)^[n] db).persons.map personPN := by
      rw [hpn]
      exact List.mem_append_left _ (List.mem_map_of_mem _ hp)
    rcases List.mem_map.mp hmem with ⟨p2, hp2, hpneq⟩
    exact ⟨p2, hp2, congrArg Prod.fst hpneq, congrArg Prod.snd hpneq⟩

/-- Witness for C4 at `dbManual` (face 1 is manually assigned to person 1)
with two re-clustering passes. -/
theorem recluster_preserves_manual_and_names_witness :
    (∀ f ∈ dbManual.faces, f.is_manual_assignment = some true →
      ∃ f2, f2 ∈ ((fun d => (cluster_faces (3/5) "t1" d).1)^[2] dbManual).faces
        ∧ f2.id = f.id ∧ f2.person_id = f.person_id
        ∧ f2.is_manual_assignment = some true)
    ∧ (∀ p ∈ dbManual.persons,
      ∃ p2, p2 ∈ ((fun d => (cluster_faces (3/5) "t1" d).1)^[2] dbManual).persons
        ∧ p2.id = p.id ∧ p2.name = p.name) :=
  recluster_preserves_manual_and_names (3/5) "t1" dbManual 2 (by decide)

/-! ## Claim C1 -/

/-- C1: refuted on the code.  The spec demands that `delete_image` delete
every Person that would be left with zero faces, in particular one owning
two faces that are both in the deleted image.  But `delete_image` counts
the person's faces *before* any face has been deleted and deletes the
person only when the count is exactly 1: on `dbTwoFaces` (person 5 owns
exactly faces 1 and 2, both in image 10) both iterations see a count of 2,
merely `$pull` the references, and after the bulk delete person 5 survives
with an empty face set — an orphan — while the response reports no deleted
person. -/
theorem delete_image_leaves_orphan_person :
    (delete_image dbTwoFaces 10 "t1").1.persons =
        [⟨5, "Person 1", [], [], some "t1"⟩]
      ∧ (delete_image dbTwoFaces 10 "t1").1.faces = []
      ∧ (delete_image dbTwoFaces 10 "t1").2 = .ok 2 [] := by
  decide

/-! ## Claim C2: counterexample -/

/-- C2 counterexample: on `dbTwinPersons` re-clustering moves both faces
to person 1 (its representative matches first), leaving person 2 with zero
assigned faces; yet person 2 is still present afterwards — `cluster_faces`
never deletes a person, so the empty Person is left stale, not "explicitly
deleted during the rebuild pass". -/
theorem recluster_keeps_empty_person :
    ((cluster_faces (3/5) "t1" dbTwinPersons).1.persons.map (fun p => p.id))
        = [1, 2]
      ∧ ((cluster_faces (3/5) "t1" dbTwinPersons).1.faces.filter
          (fun f => f.person_id == some 2)) = [] := by
  with_unfolding_all decide

/-! ## Claim C5: counterexample -/

/-- C5 counterexample: on `dbNoEmbedding` (face 1 lacks the `embedding`
key, faces 2 and 3 have embeddings, so the 2-face threshold passes) the
re-clustering loop evaluates `np.array(face["embedding"])` unguarded and
the whole operation fails with an error, contradicting "a missing
embedding on a stored Face never causes the operation to fail". -/
theorem recluster_missing_embedding_fails :
    (cluster_faces (3/5) "t1" dbNoEmbedding).2 = .err "KeyError: embedding" := by
  decide

/-! ## Claim C9: counterexample -/

/-- C9 counterexample: `dbStalePerson` holds one Person (so the global
sequential count is 1 and the next auto name should be "Person 2"), but
that Person has zero assigned faces, so `cluster_faces` starts its counter
at `len(existing_person_encodings) = 0` and names the first Person it
creates "Person 1" — the counter does not continue the global sequence. -/
theorem recluster_restarts_name_counter :
    ((cluster_faces (3/5) "t1" dbStalePerson).1.persons.map (fun p => p.name))
        = ["Person 1", "Person 1", "Person 2"]
      ∧ dbStalePerson.persons.length = 1 := by
  with_unfolding_all decide

/-! ## Claim C6 -/

/-- C6: confirmed.  During one upload, the candidate pool handed to the
Identity Matcher for the face processed at position `i` is exactly the
initial pool — the `(embedding, person_id)` pairs of all stored faces
having both a (truthy) embedding and a non-null `person_id` — followed by
the `(encoding, person_id)` assignments of the faces processed earlier in
the same call, so faces of one photo can bind to each other's person. -/
theorem ingest_pool_characterization (db : DB) (filename : String)
    (detected : List (List ℚ)) (tol : ℚ) (now : String) :
    ∀ (i : Nat) (s : IngStep),
      (ingestRun db filename detected tol now).2.1.steps[i]? = some s →
      s.pool = initialPool db
        ++ (((ingestRun db filename detected tol now).2.1.steps.take i).map
            (fun s2 => (s2.encoding, s2.person_id))) := by
  intro i s hs
  unfold ingestRun at hs ⊢
  dsimp only at hs ⊢
  refine ingestLoop_steps tol now db.nextId detected _ (initialPool db) ?_ ?_ i s hs
  · show initialPool _ = initialPool db ++ ([] : List IngStep).map _
    simp only [List.map_nil, List.append_nil]
    rfl
  · intro i2 s2 hs2
    simp at hs2

/-- Witness for C6 on `dbPoolW` uploading two encodings, at step 1: the
pool is the initial pool plus the step-0 assignment. -/
theorem ingest_pool_characterization_witness :
    ((ingestRun dbPoolW "c.jpg" [[0], [(1 : ℚ)/10]] (3/5) "t1").2.1.steps[1]?
        = some ⟨[([0], 5), ([0], 5)], [(1 : ℚ)/10], 5, 13⟩)
    ∧ (⟨[([0], 5), ([0], 5)], [(1 : ℚ)/10], 5, 13⟩ : IngStep).pool
        = initialPool dbPoolW
          ++ (((ingestRun dbPoolW "c.jpg" [[0], [(1 : ℚ)/10]] (3/5) "t1").2.1.steps.take 1).map
              (fun s2 => (s2.encoding, s2.person_id))) :=
  ⟨by with_unfolding_all decide,
   ingest_pool_characterization dbPoolW "c.jpg" [[0], [(1 : ℚ)/10]] (3/5) "t1" 1
     ⟨[([0], 5), ([0], 5)], [(1 : ℚ)/10], 5, 13⟩ (by with_unfolding_all decide)⟩

/-! ## Claim C9: amended -/

theorem process_single_image_persons (db : DB) (filename : String)
    (detected : List (List ℚ)) (tol : ℚ) (now : String) :
    (process_single_image db filename detected tol now).1.persons
      = (ingestRun db filename detected tol now).2.1.db.persons := by
  rcases hrun : ingestRun db filename detected tol now with ⟨imgid, st, err⟩
  unfold process_single_image
  rw [hrun]
  cases err with
  | none =>
    dsimp only
    split <;> rfl
  | some msg => rfl

theorem ingestRun_names (db : DB) (filename : String)
    (detected : List (List ℚ)) (tol : ℚ) (now : String) :
    ∃ k, (ingestRun db filename detected tol now).2.1.db.persons.map Person.name
      = db.persons.map Person.name
        ++ (List.range k).map
          (fun j => "Person " ++ toString (db.persons.length + 1 + j)) := by
  unfold ingestRun
  dsimp only
  rcases ingestLoop_names tol now db.nextId detected
    (IngState.mk
      (DB.mk db.faces db.persons
        (db.images ++ [Image.mk db.nextId filename [] []]) (db.nextId + 1))
      (initialPool (DB.mk db.faces db.persons
        (db.images ++ [Image.mk db.nextId filename [] []]) (db.nextId + 1)))
      [] [] [] []) with ⟨k, hn, _⟩
  exact ⟨k, hn⟩

/-- C9: refuted as stated, amended.  During upload every auto-created
Person is indeed named `"Person {current person count + 1}"`, a sequence
continuing the collection size.  But `recluster()` does *not* continue the
global sequential counter: its counter starts from `repsCount db`, the
number of pre-existing persons that have at least one assigned face — so
whenever a person with zero faces exists the two sequences diverge and
recluster reuses already-taken names (see the counterexample). -/
theorem person_naming_counters (tol : ℚ) (now : String) (db : DB)
    (filename : String) (detected : List (List ℚ)) :
    (∃ k, (cluster_faces tol now db).1.persons.map Person.name
        = db.persons.map Person.name
          ++ (List.range k).map
            (fun j => "Person " ++ toString (repsCount db + 1 + j)))
    ∧ (∃ k2,
        (process_single_image db filename detected tol now).1.persons.map Person.name
          = db.persons.map Person.name
            ++ (List.range k2).map
              (fun j => "Person " ++ toString (db.persons.length + 1 + j))) := by
  refine ⟨cluster_faces_names tol now db, ?_⟩
  rw [process_single_image_persons]
  exact ingestRun_names db filename detected tol now

/-! ## Claim C5: amended -/

/-- C5: refuted as stated, amended.  (a) The Assignment Engine's candidate
pool only ever contains stored faces *with* embeddings, and an upload
whose pool and detected encodings share one dimension always succeeds —
an embedding-less stored face can never fail it.  (b) The Re-clustering
Engine's extraction step likewise skips embedding-less faces for the
2-face threshold, but its reassignment loop reads `face["embedding"]`
unguarded: a selected stored face whose embedding key is absent makes the
whole `recluster()` call fail with `KeyError` (here placed first among the
selected faces, with at least two embedded faces so the threshold
passes). -/
theorem missing_embedding_handling :
    (∀ (db : DB) (filename : String) (detected : List (List ℚ)) (tol : ℚ)
        (now : String) (d : Nat),
      (∀ pr ∈ initialPool db, pr.1.length = d) →
      (∀ e ∈ detected, e.length = d) →
      ∃ out, (process_single_image db filename detected tol now).2 = .ok out)
    ∧ (∀ (db : DB) (tol : ℚ) (now : String) (f : Face) (rest : List Face),
      db.faces.filter autoFace = f :: rest →
      f.embedding = .absent →
      2 ≤ ((f :: rest).filter hasEmb).length →
      (∃ reps, buildReps db = .ok reps) →
      (cluster_faces tol now db).2 = .err "KeyError: embedding") := by
  constructor
  · intro db filename detected tol now d h1 h2
    have herr : (ingestRun db filename detected tol now).2.2 = none := by
      unfold ingestRun
      dsimp only
      refine ingestLoop_ok tol now db.nextId d detected _ ?_ h2
      intro pr hpr
      exact h1 pr hpr
    rcases hrun : ingestRun db filename detected tol now with ⟨imgid, st, err⟩
    rw [hrun] at herr
    simp only at herr
    subst herr
    unfold process_single_image
    rw [hrun]
    dsimp only
    split
    · exact ⟨_, rfl⟩
    · exact ⟨_, rfl⟩
  · intro db tol now f rest hsel hemb hcnt hreps
    unfold cluster_faces
    dsimp only
    rw [hsel]
    rw [if_neg (by simp)]
    rw [if_neg (by omega)]
    split
    · rename_i e heq
      rcases hreps with ⟨reps, hrepsok⟩
      rw [hrepsok] at heq
      simp at heq
    · rename_i reps2 heq
      have hface : reclusterFace tol reps2
          ⟨clearAuto db, [], reps2.length⟩ f = .error "KeyError: embedding" := by
        unfold reclusterFace
        rw [hemb]
        rfl
      rw [reclusterLoop_cons_error tol reps2 _ f rest _ hface]

/-- Witness for the amended C5 on `dbNoEmbedding`: its upload never
errors (the embedding-less faces simply never enter the pool), while
`recluster()` on it fails with the `KeyError`. -/
theorem missing_embedding_handling_witness :
    (∃ out, (process_single_image dbNoEmbedding "c.jpg" [[0]] (3/5) "t1").2 = .ok out)
    ∧ (cluster_faces (3/5) "t1" dbNoEmbedding).2 = .err "KeyError: embedding" :=
  ⟨missing_embedding_handling.1 dbNoEmbedding "c.jpg" [[0]] (3/5) "t1" 1
      (by decide) (by decide),
   missing_embedding_handling.2 dbNoEmbedding (3/5) "t1"
      ⟨1, .absent, none, 10, none⟩
      [⟨2, .val [0], none, 10, none⟩, ⟨3, .val [100], none, 10, none⟩]
      (by decide) rfl (by decide) ⟨[], rfl⟩⟩

/-! ## Claim C10: amended -/

theorem map_updateFirst_of_find? (φ : α → β) (pred : α → Bool) (g : α → α)
    (l : List α) (a : α) (hfind : l.find? pred = some a) (hg : φ (g a) = φ a) :
    (updateFirst pred g l).map φ = l.map φ := by
  induction l with
  | nil => simp at hfind
  | cons x xs ih =>
    by_cases hp : pred x
    · rw [List.find?_cons_of_pos _ hp] at hfind
      injection hfind with hax
      subst hax
      simp [updateFirst, hp, hg]
    · rw [List.find?_cons_of_neg _ hp] at hfind
      simp [updateFirst, hp, ih hfind]

/-- C10: refuted as stated, amended.  Renaming a person to its (stripped)
current non-empty name returns the 500 "Failed to update person name"
only when the fresh `updated_at` timestamp coincides with the stored one;
otherwise the `$set` still modifies the document (via `updated_at`), the
store reports one modified document, and the route answers success with
`old_name = new_name`.  The person's name is unchanged either way. -/
theorem rename_person_same_name_spec (db : DB) (person_id : Nat) (p : Person)
    (rawName now : String)
    (hfind : db.persons.find? (fun q => q.id == person_id) = some p)
    (hname : pyStrip rawName = p.name) (hne : p.name ≠ "") :
    ((rename_person db person_id rawName now).2
        = if p.updated_at == some now then RenameResult.updateFailed
          else .renamed p.name p.name)
    ∧ ((rename_person db person_id rawName now).1.persons.map Person.name
        = db.persons.map Person.name) := by
  unfold rename_person
  dsimp only
  rw [hname, if_neg hne, hfind]
  dsimp only
  constructor
  · by_cases hb : (p.updated_at == some now) = true
    · simp [bne, hb]
    · simp [bne, hb]
  · split
    · exact map_updateFirst_of_find? Person.name _ _ db.persons p hfind rfl
    · exact map_updateFirst_of_find? Person.name _ _ db.persons p hfind rfl

/-- Witness for the amended C10 at `dbAlice`, renaming person 7 to its
current name "Alice" at a time different from the stored `updated_at`. -/
theorem rename_person_same_name_spec_witness :
    ((rename_person dbAlice 7 "Alice" "t1").2
        = if (some "t0" : Option String) == some "t1" then RenameResult.updateFailed
          else .renamed "Alice" "Alice")
    ∧ ((rename_person dbAlice 7 "Alice" "t1").1.persons.map Person.name
        = dbAlice.persons.map Person.name) :=
  rename_person_same_name_spec dbAlice 7 ⟨7, "Alice", [1], [], some "t0"⟩
    "Alice" "t1" (by decide) (by decide) (by decide)

/-! ## Claim C7 -/

/-- C7: confirmed.  When fewer than two stored Faces have (truthy)
embeddings, `cluster_faces` exits through one of its two early success
returns — "no faces to cluster" or "need at least 2 faces" — and the store
is completely unchanged: the `$unset` clearing step, the reassignment loop
and the rebuild passes are never reached. -/
theorem recluster_too_few_embeddings_is_noop (tol : ℚ) (now : String) (db : DB)
    (h : (db.faces.filter hasEmb).length < 2) :
    (cluster_faces tol now db).1 = db
    ∧ ((cluster_faces tol now db).2 = .noFaces (manualCount db)
       ∨ (cluster_faces tol now db).2 = .tooFew) := by
  have hsub : List.Sublist ((db.faces.filter autoFace).filter hasEmb)
      (db.faces.filter hasEmb) :=
    (List.filter_sublist db.faces).filter hasEmb
  have hlen : ((db.faces.filter autoFace).filter hasEmb).length < 2 :=
    lt_of_le_of_lt hsub.length_le h
  by_cases he : (db.faces.filter autoFace).isEmpty = true
  · have hcf : cluster_faces tol now db = (db, .noFaces (manualCount db)) := by
      simp only [cluster_faces]
      rw [if_pos he]
    rw [hcf]
    exact ⟨rfl, Or.inl rfl⟩
  · have hcf : cluster_faces tol now db = (db, .tooFew) := by
      simp only [cluster_faces]
      rw [if_neg he, if_pos hlen]
    rw [hcf]
    exact ⟨rfl, Or.inr rfl⟩

/-- Witness for C7: a store with a single embedded face plus one whose
embedding is `None`. -/
theorem recluster_too_few_embeddings_is_noop_witness :
    (cluster_faces (3/5) "t1" dbOneEmbedding).1 = dbOneEmbedding
    ∧ ((cluster_faces (3/5) "t1" dbOneEmbedding).2 = .noFaces (manualCount dbOneEmbedding)
       ∨ (cluster_faces (3/5) "t1" dbOneEmbedding).2 = .tooFew) :=
  recluster_too_few_embeddings_is_noop (3/5) "t1" dbOneEmbedding (by decide)

/-! ## Claim C8 -/

/-- C8: confirmed.  When the Embedding Source detects zero faces, the
upload still succeeds: the response is the "no faces detected" success
payload (zero faces detected, zero persons assigned, no assignment list),
the faces and persons collections are untouched, and the Image record is
still created (with empty face and person lists). -/
theorem ingest_zero_faces_succeeds (db : DB) (filename : String) (tol : ℚ)
    (now : String) :
    (process_single_image db filename [] tol now).2 = .ok (.noFaces db.nextId)
    ∧ (process_single_image db filename [] tol now).1.faces = db.faces
    ∧ (process_single_image db filename [] tol now).1.persons = db.persons
    ∧ (⟨db.nextId, filename, [], []⟩ : Image) ∈
        (process_single_image db filename [] tol now).1.images := by
  refine ⟨rfl, rfl, rfl, ?_⟩
  exact mem_updateFirst_self _ _ _ _
    (List.mem_append_right _ (List.mem_singleton.mpr rfl)) rfl

/-! ## Claim C10: counterexample -/

/-- C10 counterexample: renaming person 7 of `dbAlice` to its current
name "Alice" at a time different from the stored `updated_at` returns the
success response (old and new name both "Alice"), not the claimed 500:
the `$set` also writes a fresh `updated_at`, so `modified_count` is 1. -/
theorem rename_same_name_returns_success :
    (rename_person dbAlice 7 "Alice" "t1").2 = .renamed "Alice" "Alice"
      ∧ ((rename_person dbAlice 7 "Alice" "t1").1.persons.map (fun p => p.name))
          = ["Alice"] := by
  with_unfolding_all decide

end FaceGallery
